import Mathlib

/-!
# Verification of the OS-AI terminal/file service pair

A shallow embedding, in Lean 4, of the session, command-execution,
process-supervision, history and diff components of the OS-AI repository
(a Go implementation of a FileService and a TerminalService).

Conventions of the embedding:
* Go maps keyed by strings become association lists `List (String × α)`;
  Go map iteration order is arbitrary, so theorems quantify over the order.
* Timestamps become `Nat` seconds; `time.Now()` becomes an explicit `now`
  parameter threaded to each operation that reads the clock.
* Fallible Go functions returning `(T, error)` become `Except String T`.
* Mutation through pointers becomes explicit state passing on a
  `SessionManagerState` record.
* Mutex operations are elided: each embedded operation is the sequential
  body of the corresponding Go function.
-/

namespace OsAi

/-- Association-list lookup, first match wins (Go map indexing). -/
def lookupA {α : Type} (l : List (String × α)) (k : String) : Option α :=
  match l with
  | [] => none
  | (k', v) :: rest => if k' = k then some v else lookupA rest k

/-- Association-list insert/replace (Go `m[k] = v`). -/
def insertA {α : Type} (l : List (String × α)) (k : String) (v : α) :
    List (String × α) :=
  match l with
  | [] => [(k, v)]
  | (k', v') :: rest =>
      if k' = k then (k, v) :: rest else (k', v') :: insertA rest k v

/-- Association-list removal (Go `delete(m, k)`). -/
def removeA {α : Type} (l : List (String × α)) (k : String) :
    List (String × α) :=
  l.filter (fun p => p.1 ≠ k)

/-- Association-list in-place update of the value stored at `k`. -/
def updateA {α : Type} (l : List (String × α)) (k : String) (f : α → α) :
    List (String × α) :=
  l.map (fun p => if p.1 = k then (p.1, f p.2) else p)

/-! ## Environment composition

`CommandService.ExecuteCommand` and `ProcessService.StartProcess` both build
the child environment as `os.Environ()` followed by the session's `EnvVars`
followed by the request's `Environment` (src/unnamed/part_003 lines 188-199,
src/unnamed/part_001 lines 102-113).  Go's `os/exec` keeps, for every
duplicated key of `cmd.Env`, only the last entry of the slice, which
`lookupLastEnv` reproduces. -/

/-- The value the child observes for key `k` of an environment slice:
the last `k` entry wins (semantics of duplicate keys in `exec.Cmd.Env`). -/
def lookupLastEnv (env : List (String × String)) (k : String) : Option String :=
  env.foldl (fun acc p => if p.1 = k then some p.2 else acc) none

/-- Child environment of a spawned command: host process environment,
then session environment variables, then request environment variables
(later entries override earlier ones for duplicate keys). -/
def composeEnv (hostEnv sessEnv reqEnv : List (String × String)) :
    List (String × String) :=
  hostEnv ++ sessEnv ++ reqEnv

/-! ## Output buffer of a background process

`ProcessService.StartProcess` creates an `OutputBuffer` with
`MaxLines = 10000` (src/unnamed/part_001 lines 139-144) and
`ProcessService.collectOutput` appends every scanned line, trimming the
buffer to its last `MaxLines` entries whenever it exceeds that bound
(src/unnamed/part_001 lines 226-249). -/

/-- Maximum number of retained lines per stream of an output buffer. -/
def outputBufferMaxLines : Nat := 10000

/-- One iteration of `collectOutput`'s scanner loop for a buffer bounded by
`maxLines`: append the line, then trim to the last `maxLines` entries if
the bound is exceeded. -/
def collectStep (maxLines : Nat) (buffer : List String) (line : String) :
    List String :=
  let b := buffer ++ [line]
  if maxLines < b.length then b.drop (b.length - maxLines) else b

/-- The buffer contents after `collectOutput` has consumed the given lines,
starting from a buffer state `init`. -/
def collectFrom (maxLines : Nat) (init : List String) (lines : List String) :
    List String :=
  lines.foldl (collectStep maxLines) init

/-- The buffer contents after `collectOutput` has consumed the given lines
from the empty initial buffer of `StartProcess`. -/
def collectOutput (lines : List String) : List String :=
  collectFrom outputBufferMaxLines [] lines

/-- The last `n` elements of a list. -/
def lastN {α : Type} (n : Nat) (l : List α) : List α :=
  l.drop (l.length - n)

theorem lastN_length_le {α : Type} (n : Nat) (l : List α) :
    (lastN n l).length ≤ n := by
  simp only [lastN, List.length_drop]
  omega

theorem lastN_of_le {α : Type} (n : Nat) (l : List α) (h : l.length ≤ n) :
    lastN n l = l := by
  simp [lastN, Nat.sub_eq_zero_of_le h]

/-- `collectStep` computes the last-`n` suffix of the buffer extended by the
new line. -/
theorem collectStep_eq_lastN (n : Nat) (buffer : List String)
    (line : String) :
    collectStep n buffer (line) = lastN n (buffer ++ [line]) := by
  simp only [collectStep, lastN]
  by_cases h : n < (buffer ++ [line]).length
  · rw [if_pos h]
  · rw [if_neg h]
    push_neg at h
    rw [Nat.sub_eq_zero_of_le h, List.drop_zero]

theorem lastN_lastN_append {α : Type} (n : Nat) (xs ys : List α) :
    lastN n (lastN n xs ++ ys) = lastN n (xs ++ ys) := by
  simp only [lastN, List.length_drop, List.length_append]
  have hA : xs.drop (xs.length - n) ++ ys = (xs ++ ys).drop (xs.length - n) := by
    rw [List.drop_append_eq_append_drop, Nat.sub_eq_zero_of_le (Nat.sub_le _ _),
      List.drop_zero]
  rw [hA, List.drop_drop]
  congr 1
  omega

/-- `collectOutput`'s scanner loop, started on an in-bounds buffer, always
ends holding exactly the last `n` lines of everything it has seen. -/
theorem collectFrom_eq_lastN (n : Nat) (init lines : List String)
    (h : init.length ≤ n) :
    collectFrom n init lines = lastN n (init ++ lines) := by
  induction lines generalizing init with
  | nil => simpa [collectFrom] using (lastN_of_le n init h).symm
  | cons l rest ih =>
      have step : collectFrom n init (l :: rest) =
          collectFrom n (collectStep n init l) rest := rfl
      rw [step, collectStep_eq_lastN,
        ih (lastN n (init ++ [l])) (lastN_length_le n _),
        lastN_lastN_append]
      simp

/-! ## Environment composition lemmas -/

theorem lookupLastEnv_foldl_acc (k : String) (acc : Option String)
    (env : List (String × String)) :
    env.foldl (fun acc p => if p.1 = k then some p.2 else acc) acc =
      match lookupLastEnv env k with
      | some v => some v
      | none => acc := by
  induction env generalizing acc with
  | nil => simp [lookupLastEnv]
  | cons p rest ih =>
      show rest.foldl _ (if p.1 = k then some p.2 else acc) = _
      rw [ih]
      have hr : lookupLastEnv (p :: rest) k =
          match lookupLastEnv rest k with
          | some v => some v
          | none => if p.1 = k then some p.2 else none := by
        show rest.foldl _ (if p.1 = k then some p.2 else none) = _
        rw [ih]
      rw [hr]
      cases lookupLastEnv rest k with
      | some v => rfl
      | none =>
          by_cases hp : p.1 = k <;> simp [hp]

theorem lookupLastEnv_append (k : String) (xs ys : List (String × String)) :
    lookupLastEnv (xs ++ ys) k =
      match lookupLastEnv ys k with
      | some v => some v
      | none => lookupLastEnv xs k := by
  show ((xs ++ ys).foldl _ none) = _
  rw [List.foldl_append, lookupLastEnv_foldl_acc]
  cases lookupLastEnv ys k <;> rfl

/-- C2: for every background process the stdout and stderr line buffers each
hold at most 10 000 lines at every point; the buffer always equals the lines
seen so far with the earliest evicted FIFO, and once more than 10 000 lines
have been emitted exactly the last 10 000 are retained.  (Both collectors run
`collectOutput`; quantifying over the emitted line list covers every point of
the process's life, the post-reaper state included.) -/
theorem C2_output_buffer_bounded (lines : List String) :
    (collectOutput lines).length ≤ outputBufferMaxLines ∧
    collectOutput lines = lines.drop (lines.length - outputBufferMaxLines) ∧
    (outputBufferMaxLines < lines.length →
      (collectOutput lines).length = outputBufferMaxLines) := by
  have h : collectOutput lines = lastN outputBufferMaxLines lines := by
    rw [collectOutput, collectFrom_eq_lastN _ _ _ (by simp), List.nil_append]
  refine ⟨?_, ?_, ?_⟩
  · rw [h]; exact lastN_length_le _ _
  · rw [h]; rfl
  · intro hlt
    rw [h]
    simp only [lastN, List.length_drop]
    omega

/-- Witness for C2 at a concrete input: a process that emitted 10 001 lines
retains exactly 10 000. -/
theorem C2_output_buffer_bounded_witness :
    (collectOutput (List.replicate 10001 "line")).length =
      outputBufferMaxLines :=
  (C2_output_buffer_bounded (List.replicate 10001 "line")).2.2
    (by simp only [List.length_replicate, outputBufferMaxLines]; omega)

/-- C4: the child environment of a foreground execution or a started
background process is host env ++ session env ++ request env, later entries
overriding earlier ones for duplicate keys: a key set in the request env
takes its request value, a key absent there but set in the session env takes
its session value, and all other keys fall through to the host environment.
(The value a spawned `echo $A $B` observes for a variable is
`lookupLastEnv` of the composed slice.) -/
theorem C4_env_composition (hostEnv sessEnv reqEnv : List (String × String))
    (k : String) :
    (∀ v, lookupLastEnv reqEnv k = some v →
      lookupLastEnv (composeEnv hostEnv sessEnv reqEnv) k = some v) ∧
    (lookupLastEnv reqEnv k = none →
      ∀ v, lookupLastEnv sessEnv k = some v →
        lookupLastEnv (composeEnv hostEnv sessEnv reqEnv) k = some v) ∧
    (lookupLastEnv reqEnv k = none → lookupLastEnv sessEnv k = none →
      lookupLastEnv (composeEnv hostEnv sessEnv reqEnv) k =
        lookupLastEnv hostEnv k) := by
  have h1 := lookupLastEnv_append k (hostEnv ++ sessEnv) reqEnv
  have h2 := lookupLastEnv_append k hostEnv sessEnv
  refine ⟨?_, ?_, ?_⟩
  · intro v hv
    show lookupLastEnv (hostEnv ++ sessEnv ++ reqEnv) k = some v
    rw [h1, hv]
  · intro hnone v hv
    show lookupLastEnv (hostEnv ++ sessEnv ++ reqEnv) k = some v
    rw [h1, hnone]
    simp only
    rw [h2, hv]
  · intro hnone hnone2
    show lookupLastEnv (hostEnv ++ sessEnv ++ reqEnv) k = lookupLastEnv hostEnv k
    rw [h1, hnone]
    simp only
    rw [h2, hnone2]

/-- Witness for C4 on the spec's example: session env `{A:"s"}`, request env
`{A:"r", B:"b"}` — the child sees `A = "r"` and `B = "b"`. -/
theorem C4_env_composition_witness :
    lookupLastEnv (composeEnv [("PATH", "/usr/bin")] [("A", "s")]
      [("A", "r"), ("B", "b")]) "A" = some "r" ∧
    lookupLastEnv (composeEnv [("PATH", "/usr/bin")] [("A", "s")]
      [("A", "r"), ("B", "b")]) "B" = some "b" :=
  ⟨(C4_env_composition [("PATH", "/usr/bin")] [("A", "s")]
      [("A", "r"), ("B", "b")] "A").1 "r" (by decide),
   (C4_env_composition [("PATH", "/usr/bin")] [("A", "s")]
      [("A", "r"), ("B", "b")] "B").1 "b" (by decide)⟩

/-! ## Foreground command execution

`CommandService.ExecuteCommand` (src/unnamed/part_003 lines 160-243) runs
`shell -c command`, captures stdout/stderr into byte buffers and builds a
`CommandOutput` from the outcome of `cmd.Run()`.  The float field
`executionTime` is elided; no claim touches it. -/

/-- Result record of a foreground execution (`CommandOutput`,
src/unnamed/part_003 lines 127-133). -/
structure CommandOutput where
  exitCode : Int
  stdout : String
  stderr : String
  command : String
deriving Repr, DecidableEq

/-- Outcome of `cmd.Run()` as Go reports it to `ExecuteCommand`:
`success` is a nil error; `exited code` is an `*exec.ExitError` for a child
that exited normally with status `code`; `signaled` is an `*exec.ExitError`
for a child terminated by a signal, for which Go's
`ProcessState.ExitCode()` yields `-1`; `startError` is any other error
(spawn/exec failure), carrying its message. -/
inductive RunOutcome where
  | success
  | exited (code : Int)
  | signaled (sig : String)
  | startError (msg : String)
deriving Repr, DecidableEq

/-- The `CommandOutput` that `ExecuteCommand` builds from the captured
stream contents and the `cmd.Run()` outcome (src/unnamed/part_003 lines
216-233): an `*exec.ExitError` stores `ExitCode()` (which is `-1` for a
signal-terminated child) and leaves stderr as captured; any other error
stores `-1` and appends `"\n" ++ msg` to stderr. -/
def executeCommandResult (command stdoutCaptured stderrCaptured : String)
    (outcome : RunOutcome) : CommandOutput :=
  match outcome with
  | .success =>
      { exitCode := 0, stdout := stdoutCaptured, stderr := stderrCaptured,
        command := command }
  | .exited code =>
      { exitCode := code, stdout := stdoutCaptured, stderr := stderrCaptured,
        command := command }
  | .signaled _ =>
      { exitCode := -1, stdout := stdoutCaptured, stderr := stderrCaptured,
        command := command }
  | .startError msg =>
      { exitCode := -1, stdout := stdoutCaptured,
        stderr := stderrCaptured ++ "\n" ++ msg, command := command }

/-- C7 counterexample: for a child terminated by a signal (here SIGKILL with
stderr captured as "partial"), `ExecuteCommand` returns `exit_code = -1` but
leaves stderr exactly as captured — no error message is appended, contrary
to the claim that signal exits append the underlying error message. -/
theorem C7_counterexample :
    (executeCommandResult "sleep 30" "" "partial"
        (RunOutcome.signaled "SIGKILL")).exitCode = -1 ∧
    (executeCommandResult "sleep 30" "" "partial"
        (RunOutcome.signaled "SIGKILL")).stderr = "partial" :=
  ⟨rfl, rfl⟩

/-- C7 (amended): a foreground command that failed to start yields
`exit_code = -1` with the error message appended to stderr; a child that
exited due to a signal yields `exit_code = -1` (Go's `ExitCode()` for
signal termination) with stderr left exactly as captured; a normal
nonzero exit propagates the OS exit code. -/
theorem C7_exit_code_error_handling (command out err : String) :
    (∀ msg,
      (executeCommandResult command out err (.startError msg)).exitCode = -1 ∧
      (executeCommandResult command out err (.startError msg)).stderr =
        err ++ "\n" ++ msg) ∧
    (∀ sig,
      (executeCommandResult command out err (.signaled sig)).exitCode = -1 ∧
      (executeCommandResult command out err (.signaled sig)).stderr = err) ∧
    (∀ code,
      (executeCommandResult command out err (.exited code)).exitCode = code) :=
  ⟨fun _ => ⟨rfl, rfl⟩, fun _ => ⟨rfl, rfl⟩, fun _ => rfl⟩

/-! ## Batch command execution

`CommandService.ExecuteBatchCommands` (src/unnamed/part_003 lines 245-280)
invokes `ExecuteCommand` per command.  Its loop is embedded below over the
list of per-command invocation outcomes (`(output, err)` with `output` nil
exactly when `err ≠ nil`). -/

/-- What `ExecuteBatchCommands` produces: a normal return of the results
slice, an early `return results, err`, or a runtime nil-pointer panic. -/
inductive BatchResult where
  | ok (results : List (Option CommandOutput))
  | errAbort (results : List (Option CommandOutput)) (msg : String)
  | panicked (results : List (Option CommandOutput))
deriving Repr, DecidableEq

/-- The loop body of `ExecuteBatchCommands`: on an invocation error with
`continueOnError = false` it returns the accumulated results and the error
*before* appending anything; with `continueOnError = true` it appends the
nil output and then dereferences `output.ExitCode` on nil — a panic; on a
successful invocation it appends the result and breaks when
`output.ExitCode != 0 && !continueOnError`. -/
def executeBatchLoop (continueOnError : Bool) :
    List (Except String CommandOutput) → List (Option CommandOutput) →
      BatchResult
  | [], acc => .ok acc
  | .error msg :: _, acc =>
      if continueOnError then .panicked (acc ++ [none])
      else .errAbort acc msg
  | .ok out :: rest, acc =>
      if out.exitCode != 0 && !continueOnError then .ok (acc ++ [some out])
      else executeBatchLoop continueOnError rest (acc ++ [some out])

/-- `ExecuteBatchCommands` starting from the empty results slice. -/
def executeBatchCommands (continueOnError : Bool)
    (outcomes : List (Except String CommandOutput)) : BatchResult :=
  executeBatchLoop continueOnError outcomes []

theorem executeBatchLoop_ok_zero_prefix (coe : Bool)
    (pre : List CommandOutput) (rest : List (Except String CommandOutput))
    (acc : List (Option CommandOutput))
    (h0 : ∀ out ∈ pre, out.exitCode = 0) :
    executeBatchLoop coe (pre.map .ok ++ rest) acc =
      executeBatchLoop coe rest (acc ++ pre.map some) := by
  induction pre generalizing acc with
  | nil => simp
  | cons out pre ih =>
      have hz : out.exitCode = 0 := h0 out (by simp)
      simp only [List.map_cons, List.cons_append, executeBatchLoop, hz]
      rw [if_neg (by simp)]
      show executeBatchLoop coe (pre.map Except.ok ++ rest) (acc ++ [some out]) = _
      rw [ih (acc ++ [some out]) (fun o ho => h0 o (by simp [ho]))]
      simp

theorem executeBatchLoop_all_ok (outs : List (Except String CommandOutput))
    (h : ∀ o ∈ outs, ∃ out, o = .ok out) (acc : List (Option CommandOutput)) :
    executeBatchLoop true outs acc = .ok (acc ++ outs.map Except.toOption) := by
  induction outs generalizing acc with
  | nil => simp [executeBatchLoop]
  | cons o rest ih =>
      obtain ⟨out, rfl⟩ := h o (by simp)
      simp only [executeBatchLoop, Bool.not_true, Bool.and_false]
      rw [if_neg (by simp)]
      rw [ih (fun o ho => h o (by simp [ho])) (acc ++ [some out])]
      simp [Except.toOption]

/-- C3 counterexample: with `continue_on_error = false` and a single command
whose invocation errors, `ExecuteBatchCommands` returns *zero* results — the
failing command's result is not included, contrary to the claim. -/
theorem C3_counterexample :
    executeBatchCommands false [Except.error "spawn failure"] =
      BatchResult.errAbort [] "spawn failure" := rfl

/-- C3 (amended): with `continue_on_error = false`, a command whose result
has `exit_code != 0` stops the batch and its result *is* included; a command
whose invocation errors stops the batch with only the results of the
preceding commands (no result for the failing one).  With
`continue_on_error = true`, one result per command is produced provided
every invocation succeeds (an invocation error instead appends a nil result
and panics on the `output.ExitCode` nil dereference). -/
theorem C3_batch_partial_failure
    (outcomes : List (Except String CommandOutput)) :
    ((∀ o ∈ outcomes, ∃ out, o = Except.ok out) →
      executeBatchCommands true outcomes =
        .ok (outcomes.map Except.toOption)) ∧
    (∀ (pre : List CommandOutput) msg rest,
      outcomes = pre.map Except.ok ++ Except.error msg :: rest →
      (∀ out ∈ pre, out.exitCode = 0) →
      executeBatchCommands false outcomes = .errAbort (pre.map some) msg) ∧
    (∀ (pre : List CommandOutput) fail rest,
      outcomes = pre.map Except.ok ++ Except.ok fail :: rest →
      (∀ out ∈ pre, out.exitCode = 0) → fail.exitCode ≠ 0 →
      executeBatchCommands false outcomes =
        .ok (pre.map some ++ [some fail])) := by
  refine ⟨?_, ?_, ?_⟩
  · intro h
    rw [executeBatchCommands, executeBatchLoop_all_ok outcomes h []]
    simp
  · intro pre msg rest hout h0
    rw [executeBatchCommands, hout,
      executeBatchLoop_ok_zero_prefix false pre _ [] h0]
    simp [executeBatchLoop]
  · intro pre fail rest hout h0 hf
    rw [executeBatchCommands, hout,
      executeBatchLoop_ok_zero_prefix false pre _ [] h0]
    simp only [executeBatchLoop, List.nil_append]
    rw [if_pos (by simp [hf])]

/-- Witness for C3 (amended) at concrete inputs: a zero-exit result followed
by an invocation error, with `continue_on_error = false`, returns exactly
the first result and the error. -/
theorem C3_batch_partial_failure_witness :
    executeBatchCommands false
        [Except.ok ⟨0, "ok\n", "", "true"⟩, Except.error "boom"] =
      BatchResult.errAbort [some ⟨0, "ok\n", "", "true"⟩] "boom" :=
  (C3_batch_partial_failure
      [Except.ok ⟨0, "ok\n", "", "true"⟩, Except.error "boom"]).2.1
    [⟨0, "ok\n", "", "true"⟩] "boom" [] rfl (by decide)

/-! ## Session registry and process supervision

Embeds `SessionManager` of the terminal service (the Go file stored at
src/terminalAPI/client/run_streamlit_app.sh, lines 31-391), the
`EnvService` of src/terminalAPI/services/env.go, and the process-handle
lifecycle of `ProcessService.StartProcess` (src/unnamed/part_001). -/

/-- A background process handle (`Process`, src/unnamed/part_001 lines
19-33).  Runtime references (pipes, `exec.Cmd`, channels, mutex, `Done`)
are elided; `killSent` abstracts whether `Cmd.Process.Kill()` has been
invoked on the child. -/
structure Proc where
  id : String
  command : String
  pid : Int
  exitCode : Int
  completed : Bool
  killSent : Bool
deriving Repr, DecidableEq

/-- A terminal session record (`Session`, run_streamlit_app.sh lines
45-56).  Timestamps are `Nat` seconds; the activity-log entries drop the
RFC 3339 timestamp rendering. -/
structure Session where
  id : String
  createdAt : Nat
  lastActive : Nat
  workingDir : String
  isActive : Bool
  expiresAt : Nat
  activityLog : List String
  envVars : List (String × String)
  runningProcesses : List (String × Proc)
deriving Repr, DecidableEq

/-- The session registry (`SessionManager`, lines 58-63). -/
structure SessionManagerState where
  sessions : List (String × Session)
  sessionExpiry : Nat
deriving Repr, DecidableEq

/-- The 24-hour default session expiry, in seconds. -/
def defaultSessionExpiry : Nat := 86400

/-- `session.LastActive = now; session.ExpiresAt = now.Add(expiry)` — the
expiry slide performed by `GetSession` and `SetWorkingDirectory`. -/
def touchSession (s : Session) (now expiry : Nat) : Session :=
  { s with lastActive := now, expiresAt := now + expiry }

/-- The registry with its session map replaced. -/
def withSessions (sm : SessionManagerState) (l : List (String × Session)) :
    SessionManagerState :=
  { sm with sessions := l }

/-- `SessionManager.GetSession` (lines 133-147): fails unless the session
exists and is active; otherwise slides `lastActive = now` and
`expiresAt = now + expiry` and returns the (shared, hence updated)
record. -/
def getSession (sm : SessionManagerState) (id : String) (now : Nat) :
    Except String (SessionManagerState × Session) :=
  match lookupA sm.sessions id with
  | none => .error "session not found or inactive"
  | some s =>
      if s.isActive then
        let s' := touchSession s now sm.sessionExpiry
        .ok (withSessions sm (insertA sm.sessions id s'), s')
      else .error "session not found or inactive"

/-- `Process.Terminate` (src/unnamed/part_001 lines 350-362): a no-op on a
completed process, otherwise `Cmd.Process.Kill()` — recorded here as
`killSent := true`.  It neither sets `completed` nor waits on the `Done`
channel. -/
def terminate (p : Proc) : Proc :=
  if p.completed then p else { p with killSent := true }

/-- `SessionManager.DeleteSession` (lines 149-168): fails on a missing id;
otherwise runs `Terminate` over every owned process and removes the
record.  The returned list is the state of the owned handles when the call
returns (the records are shared with any caller-held snapshot).  Nothing
awaits the reaper. -/
def deleteSession (sm : SessionManagerState) (id : String) :
    Except String (SessionManagerState × List Proc) :=
  match lookupA sm.sessions id with
  | none => .error "session not found"
  | some s =>
      .ok (withSessions sm (removeA sm.sessions id),
           s.runningProcesses.map (fun pr => terminate pr.2))

/-- What `os.Stat` reports about an existing path. -/
structure FileInfo where
  isDir : Bool
deriving Repr, DecidableEq

/-- Host filesystem interface used by `SetWorkingDirectory`: `stat p = none`
models `os.Stat` failing with a not-exist error; `cwd` is the server
process's working directory used by `filepath.Abs`. -/
structure HostFs where
  stat : String → Option FileInfo
  cwd : String

/-- Whether a path is absolute (`filepath.IsAbs` on POSIX: a leading
slash). -/
def isAbsolute (dir : String) : Bool :=
  match dir.data with
  | [] => false
  | c :: _ => c = '/'

/-- `filepath.Abs`: an already-absolute path is returned as given, a
relative one is joined to the process working directory (lexical path
cleaning elided). -/
def absPath (fs : HostFs) (dir : String) : String :=
  if isAbsolute dir then dir else fs.cwd ++ "/" ++ dir

/-- The session mutation performed by a successful `SetWorkingDirectory`:
store the absolute path, slide the expiry, append an activity-log entry. -/
def setWdSession (s : Session) (ap : String) (now expiry : Nat) : Session :=
  { s with workingDir := ap, lastActive := now, expiresAt := now + expiry,
           activityLog := s.activityLog ++
             ["Set working directory to " ++ ap] }

/-- `SessionManager.SetWorkingDirectory` (run_streamlit_app.sh lines
170-199): fails on a missing/inactive session, fails when `os.Stat`
reports the path as non-existent, and otherwise — with *no* check that the
path is a directory — stores `filepath.Abs(dir)`, slides the expiry and
appends an activity-log entry.  On failure it returns before any mutation,
leaving the session unchanged. -/
def setWorkingDirectory (sm : SessionManagerState) (fs : HostFs)
    (id dir : String) (now : Nat) : Except String SessionManagerState :=
  match lookupA sm.sessions id with
  | none => .error "session not found or inactive"
  | some s =>
      if s.isActive then
        match fs.stat dir with
        | none => .error "directory does not exist"
        | some _ =>
            let s' := setWdSession s (absPath fs dir) now sm.sessionExpiry
            .ok (withSessions sm (insertA sm.sessions id s'))
      else .error "session not found or inactive"

/-- `EnvService.SetEnvVar` (src/terminalAPI/services/env.go lines 18-39):
looks the session up (existence only, no `IsActive` check), sets the
variable under the session mutex, and touches neither `LastActive` nor
`ExpiresAt`.  It reads no clock at all. -/
def envSetVar (sm : SessionManagerState) (id k v : String) :
    Except String SessionManagerState :=
  match lookupA sm.sessions id with
  | none => .error "session not found"
  | some s =>
      let s' := { s with envVars := insertA s.envVars k v }
      .ok (withSessions sm (insertA sm.sessions id s'))

/-- `EnvService.GetEnvVars` (env.go lines 41-61): returns a snapshot of the
variables; performs no mutation. -/
def envGetVars (sm : SessionManagerState) (id : String) :
    Except String (List (String × String)) :=
  match lookupA sm.sessions id with
  | none => .error "session not found"
  | some s => .ok s.envVars

/-- `EnvService.UnsetEnvVar` (env.go lines 63-83): deletes the key; touches
neither `LastActive` nor `ExpiresAt`. -/
def envUnsetVar (sm : SessionManagerState) (id k : String) :
    Except String SessionManagerState :=
  match lookupA sm.sessions id with
  | none => .error "session not found"
  | some s =>
      let s' := { s with envVars := removeA s.envVars k }
      .ok (withSessions sm (insertA sm.sessions id s'))

/-- `SessionManager.GetProcess` (run_streamlit_app.sh lines 319-334). -/
def getProcess (sm : SessionManagerState) (sessionID processID : String) :
    Except String Proc :=
  match lookupA sm.sessions sessionID with
  | none => .error "session not found or inactive"
  | some s =>
      if s.isActive then
        match lookupA s.runningProcesses processID with
        | none => .error "process not found"
        | some p => .ok p
      else .error "session not found or inactive"

/-- The `ProcessInfo` record materialized by `ListProcesses`
(src/unnamed/part_001 lines 35-42). -/
structure ProcInfo where
  id : String
  command : String
  isRunning : Bool
  exitCode : Int
  pid : Int
deriving Repr, DecidableEq

/-- The `ProcessInfo` materialized for one handle by `ListProcesses`:
`IsRunning` is `process.IsRunning()`, i.e. the negation of `Completed`. -/
def procInfoOf (k : String) (p : Proc) : ProcInfo :=
  { id := k, command := p.command, isRunning := !p.completed,
    exitCode := p.exitCode, pid := p.pid }

/-- `SessionManager.ListProcesses` (run_streamlit_app.sh lines 337-361):
each entry reports `IsRunning` as the negation of the handle's `Completed`
flag. -/
def listProcesses (sm : SessionManagerState) (sessionID : String) :
    Except String (List (String × ProcInfo)) :=
  match lookupA sm.sessions sessionID with
  | none => .error "session not found or inactive"
  | some s =>
      if s.isActive then
        .ok (s.runningProcesses.map (fun pr => (pr.1, procInfoOf pr.1 pr.2)))
      else .error "session not found or inactive"

/-- The exit code the reaper records from `cmd.Wait()` (src/unnamed/part_001
lines 185-196): `0` on a nil error, `ExitCode()` for an `*exec.ExitError`
(`-1` for a signal-terminated child), `-1` for any other error. -/
def waitExitCode : RunOutcome → Int
  | .success => 0
  | .exited code => code
  | .signaled _ => -1
  | .startError _ => -1

/-- The reaper goroutine's effect on the shared handle (src/unnamed/part_001
lines 181-210): set `Completed = true` and record the exit code.  It closes
the fan-out channels after the 100 ms drain but calls neither
`UnregisterProcess` nor any other removal. -/
def reapProc (outcome : RunOutcome) (p : Proc) : Proc :=
  { p with completed := true, exitCode := waitExitCode outcome }

/-- A session with one process handle updated by the reaper. -/
def reapSession (processID : String) (outcome : RunOutcome) (s : Session) :
    Session :=
  { s with runningProcesses :=
      updateA s.runningProcesses processID (reapProc outcome) }

/-- The registry state after the reaper of process `processID` of session
`sessionID` has run: the shared handle is updated in place; no handle is
removed from the session. -/
def reapInManager (sm : SessionManagerState) (sessionID processID : String)
    (outcome : RunOutcome) : SessionManagerState :=
  withSessions sm
    (updateA sm.sessions sessionID (reapSession processID outcome))

/-- `SessionManager.UnregisterProcess` (run_streamlit_app.sh lines 305-316).
It is defined in the source but has no caller anywhere in the repository. -/
def unregisterProcess (sm : SessionManagerState)
    (sessionID processID : String) : Except String SessionManagerState :=
  match lookupA sm.sessions sessionID with
  | none => .error "session not found"
  | some s =>
      let s' := { s with runningProcesses :=
                    removeA s.runningProcesses processID }
      .ok (withSessions sm (insertA sm.sessions sessionID s'))

/-! ### Association-list lemmas -/

theorem lookupA_removeA {α : Type} (l : List (String × α)) (k : String) :
    lookupA (removeA l k) k = none := by
  induction l with
  | nil => rfl
  | cons p rest ih =>
      by_cases h : p.1 = k
      · simpa [removeA, List.filter_cons, h] using ih
      · simpa [removeA, List.filter_cons, lookupA, h] using ih

theorem lookupA_insertA_self {α : Type} (l : List (String × α)) (k : String)
    (v : α) : lookupA (insertA l k v) k = some v := by
  induction l with
  | nil => simp [insertA, lookupA]
  | cons p rest ih =>
      by_cases h : p.1 = k
      · simp [insertA, lookupA, h]
      · simpa [insertA, lookupA, h] using ih

theorem lookupA_updateA_self {α : Type} (l : List (String × α)) (k : String)
    (f : α → α) : lookupA (updateA l k f) k = (lookupA l k).map f := by
  induction l with
  | nil => rfl
  | cons p rest ih =>
      simp only [updateA, List.map_cons]
      by_cases h : p.1 = k
      · rw [if_pos h]
        simp [lookupA, h]
      · rw [if_neg h]
        show (if p.1 = k then some p.2
          else lookupA (updateA rest k f) k) = _
        rw [if_neg h, ih]
        simp [lookupA, h]

theorem lookupA_map_keyed {α β : Type} (l : List (String × α))
    (g : String → α → β) (k : String) :
    lookupA (l.map (fun pr => (pr.1, g pr.1 pr.2))) k =
      (lookupA l k).map (g k) := by
  induction l with
  | nil => rfl
  | cons p rest ih =>
      by_cases h : p.1 = k
      · simp [lookupA, h]
      · simpa [lookupA, h] using ih

/-! ### Claim C1 — session delete vs. process completion -/

/-- Concrete state for C1: one session owning one incomplete process. -/
def c1Proc : Proc :=
  { id := "p1", command := "sleep 1000", pid := 4242, exitCode := 0,
    completed := false, killSent := false }

def c1Session : Session :=
  { id := "s1", createdAt := 0, lastActive := 10, workingDir := "/tmp",
    isActive := true, expiresAt := 86400, activityLog := [],
    envVars := [("SHELL", "/bin/bash")],
    runningProcesses := [("p1", c1Proc)] }

def c1Manager : SessionManagerState :=
  { sessions := [("s1", c1Session)], sessionExpiry := 86400 }

/-- C1 counterexample: deleting a session owning a still-running process
force-kills it (`killSent = true`) but returns with the handle's
`completed` flag still `false` — `DeleteSession` never awaits the reaper,
refuting the claim that `p.completed == true` holds when the call
returns. -/
theorem C1_counterexample :
    deleteSession c1Manager "s1" =
      Except.ok ({ sessions := [], sessionExpiry := 86400 },
        [{ id := "p1", command := "sleep 1000", pid := 4242, exitCode := 0,
           completed := false, killSent := true }]) := rfl

/-- C1 (amended): `DeleteSession` on an existing session sends a kill to
every owned process that has not yet completed and removes the session
record, but it does not await the reaper: each handle's `completed` flag is
exactly what it was before the call. -/
theorem C1_delete_session_kills_without_await (sm : SessionManagerState)
    (id : String) (s : Session) (h : lookupA sm.sessions id = some s) :
    deleteSession sm id =
      Except.ok (withSessions sm (removeA sm.sessions id),
        s.runningProcesses.map (fun pr => terminate pr.2)) ∧
    (∀ pr ∈ s.runningProcesses,
      (terminate pr.2).completed = pr.2.completed ∧
      (pr.2.completed = false → (terminate pr.2).killSent = true)) ∧
    lookupA (removeA sm.sessions id) id = none := by
  refine ⟨?_, ?_, lookupA_removeA sm.sessions id⟩
  · unfold deleteSession
    rw [h]
  · intro pr _
    unfold terminate
    by_cases hc : pr.2.completed
    · simp [hc]
    · simp [hc]

/-- Witness for C1 (amended) at the concrete state. -/
theorem C1_delete_session_kills_without_await_witness :
    deleteSession c1Manager "s1" =
      Except.ok (withSessions c1Manager (removeA c1Manager.sessions "s1"),
        c1Session.runningProcesses.map (fun pr => terminate pr.2)) ∧
    lookupA (removeA c1Manager.sessions "s1") "s1" = none :=
  ⟨(C1_delete_session_kills_without_await c1Manager "s1" c1Session rfl).1,
   (C1_delete_session_kills_without_await c1Manager "s1" c1Session rfl).2.2⟩

/-! ### Claim C6 — SetWorkingDirectory validation -/

/-- Concrete state for C6: a host filesystem on which `/tmp/notes.txt`
exists but is a regular file, not a directory. -/
def c6Session : Session :=
  { id := "s1", createdAt := 0, lastActive := 10, workingDir := "",
    isActive := true, expiresAt := 86400, activityLog := [],
    envVars := [("SHELL", "/bin/bash")], runningProcesses := [] }

def c6Manager : SessionManagerState :=
  { sessions := [("s1", c6Session)], sessionExpiry := 86400 }

def c6Fs : HostFs :=
  { stat := fun p =>
      if p = "/tmp/notes.txt" then some { isDir := false } else none,
    cwd := "/home" }

/-- The session record produced by the C6 counterexample call. -/
def c6After : Session :=
  { c6Session with
    workingDir := "/tmp/notes.txt", lastActive := 50, expiresAt := 86450,
    activityLog := ["Set working directory to " ++ "/tmp/notes.txt"] }

/-- C6 counterexample: `SetWorkingDirectory` succeeds on a path that exists
but is a regular file — the code checks only `os.IsNotExist` and never that
the path is a directory, refuting the claim that it succeeds only on
directories. -/
theorem C6_counterexample :
    c6Fs.stat "/tmp/notes.txt" = some { isDir := false } ∧
    setWorkingDirectory c6Manager c6Fs "s1" "/tmp/notes.txt" 50 =
      Except.ok { sessions := [("s1", c6After)], sessionExpiry := 86400 } :=
  ⟨rfl, rfl⟩

/-- C6 (amended): for an existing active session, `SetWorkingDirectory`
fails (leaving the session untouched — the error return precedes every
mutation) exactly when `os.Stat` reports the path as non-existent; whenever
the path exists — directory or not — it succeeds and stores the
`filepath.Abs` form of the path. -/
theorem C6_set_working_directory_semantics (sm : SessionManagerState)
    (fs : HostFs) (id dir : String) (now : Nat) (s : Session)
    (h : lookupA sm.sessions id = some s) (ha : s.isActive = true) :
    (fs.stat dir = none →
      setWorkingDirectory sm fs id dir now =
        Except.error "directory does not exist") ∧
    (∀ info, fs.stat dir = some info →
      ∃ sm', setWorkingDirectory sm fs id dir now = Except.ok sm' ∧
        ∃ s', lookupA sm'.sessions id = some s' ∧
          s'.workingDir = absPath fs dir ∧
          s'.lastActive = now ∧
          s'.expiresAt = now + sm.sessionExpiry) := by
  constructor
  · intro hst
    simp [setWorkingDirectory, h, ha, hst]
  · intro info hst
    have hrun : setWorkingDirectory sm fs id dir now =
        Except.ok (withSessions sm (insertA sm.sessions id
          (setWdSession s (absPath fs dir) now sm.sessionExpiry))) := by
      simp [setWorkingDirectory, h, ha, hst]
    exact ⟨_, hrun, _, lookupA_insertA_self sm.sessions id _, rfl, rfl, rfl⟩

/-- Witness for C6 (amended) at the concrete state: a non-existent path is
rejected. -/
theorem C6_set_working_directory_semantics_witness :
    setWorkingDirectory c6Manager c6Fs "s1" "/does/not/exist" 50 =
      Except.error "directory does not exist" :=
  (C6_set_working_directory_semantics c6Manager c6Fs "s1" "/does/not/exist"
    50 c6Session rfl rfl).1 rfl

/-! ### Claim C8 — handle lifetime after natural exit -/

/-- Concrete state for C8: one session owning one running process whose
child then exits naturally. -/
def c8Proc : Proc :=
  { id := "p1", command := "sleep 5", pid := 4242, exitCode := 0,
    completed := false, killSent := false }

def c8Session : Session :=
  { id := "s1", createdAt := 0, lastActive := 10, workingDir := "/tmp",
    isActive := true, expiresAt := 86400, activityLog := [],
    envVars := [("SHELL", "/bin/bash")],
    runningProcesses := [("p1", c8Proc)] }

def c8Manager : SessionManagerState :=
  { sessions := [("s1", c8Session)], sessionExpiry := 86400 }

/-- C8 counterexample: after the child of process `p1` exits naturally and
the reaper records the exit, `GetProcess` still returns the handle — it has
not been removed from the session, refuting the claim that natural exit
destroys the handle. -/
theorem C8_counterexample :
    getProcess (reapInManager c8Manager "s1" "p1" RunOutcome.success)
        "s1" "p1" =
      Except.ok { c8Proc with completed := true } := rfl

/-- Inversion of a successful `GetProcess`: the session exists, is active
and owns the process. -/
theorem getProcess_ok_inv {sm : SessionManagerState} {sid pid : String}
    {p : Proc} (h : getProcess sm sid pid = Except.ok p) :
    ∃ s, lookupA sm.sessions sid = some s ∧ s.isActive = true ∧
      lookupA s.runningProcesses pid = some p := by
  unfold getProcess at h
  split at h
  · exact absurd h (by simp)
  · rename_i s hs
    split at h
    · rename_i hact
      split at h
      · exact absurd h (by simp)
      · rename_i q hq
        injection h with h
        exact ⟨s, hs, hact, by rw [hq, h]⟩
    · exact absurd h (by simp)

/-- C8 (amended): after the reaper records a natural exit the handle stays
registered with its session: `GetProcess` returns it (now with
`completed = true` and the recorded exit code) and `ListProcesses` still
lists it, reporting `isRunning = false`.  `UnregisterProcess` exists in the
source but is never called, so nothing removes handles short of session
deletion. -/
theorem C8_handle_retained_after_natural_exit (sm : SessionManagerState)
    (sid pid : String) (outcome : RunOutcome) (p : Proc)
    (h : getProcess sm sid pid = Except.ok p) :
    getProcess (reapInManager sm sid pid outcome) sid pid =
      Except.ok (reapProc outcome p) ∧
    (reapProc outcome p).completed = true ∧
    (∀ infos,
      listProcesses (reapInManager sm sid pid outcome) sid =
        Except.ok infos →
      lookupA infos pid =
        some ⟨pid, p.command, false, waitExitCode outcome, p.pid⟩) := by
  obtain ⟨s, hs, hact, hp⟩ := getProcess_ok_inv h
  have hsess : lookupA (reapInManager sm sid pid outcome).sessions sid =
      some (reapSession pid outcome s) := by
    show lookupA (updateA sm.sessions sid _) sid = _
    rw [lookupA_updateA_self, hs]
    rfl
  have hproc : lookupA (updateA s.runningProcesses pid (reapProc outcome))
      pid = some (reapProc outcome p) := by
    rw [lookupA_updateA_self, hp]
    rfl
  refine ⟨?_, rfl, ?_⟩
  · simp [getProcess, reapSession, hsess, hact, hproc]
  · intro infos hinfos
    have hsame : infos = (updateA s.runningProcesses pid
        (reapProc outcome)).map (fun pr => (pr.1, procInfoOf pr.1 pr.2)) := by
      have hlist : listProcesses (reapInManager sm sid pid outcome) sid =
          Except.ok ((updateA s.runningProcesses pid
            (reapProc outcome)).map
              (fun pr => (pr.1, procInfoOf pr.1 pr.2))) := by
        simp [listProcesses, reapSession, hsess, hact]
      rw [hlist] at hinfos
      injection hinfos with hinfos
      exact hinfos.symm
    subst hsame
    rw [lookupA_map_keyed _ procInfoOf pid, hproc]
    rfl

/-- Witness for C8 (amended) at the concrete state. -/
theorem C8_handle_retained_after_natural_exit_witness :
    getProcess (reapInManager c8Manager "s1" "p1" RunOutcome.success)
        "s1" "p1" = Except.ok (reapProc RunOutcome.success c8Proc) :=
  (C8_handle_retained_after_natural_exit c8Manager "s1" "p1"
    RunOutcome.success c8Proc rfl).1

/-! ### Claim C9 — which operations slide the expiry -/

/-- Concrete state for C9: a session whose expiry deadline is 100 and last
activity 1. -/
def c9Session : Session :=
  { id := "s1", createdAt := 0, lastActive := 1, workingDir := "/tmp",
    isActive := true, expiresAt := 100, activityLog := [],
    envVars := [("SHELL", "/bin/bash")], runningProcesses := [] }

def c9Manager : SessionManagerState :=
  { sessions := [("s1", c9Session)], sessionExpiry := 86400 }

/-- C9 counterexample: a successful `SetEnvVar` leaves `expires_at = 100`
and `last_active = 1` exactly as they were.  Since the expiry period is
86 400 s, `now + 24h ≥ 86400 > 100` for every call time `now`, so the
post-call state violates `expires_at = now + 24h`: environment-variable
mutations do not slide the expiry. -/
theorem C9_counterexample :
    (envSetVar c9Manager "s1" "A" "1").toOption.bind
        (fun sm' => (lookupA sm'.sessions "s1").map Session.expiresAt) =
      some 100 ∧
    (envSetVar c9Manager "s1" "A" "1").toOption.bind
        (fun sm' => (lookupA sm'.sessions "s1").map Session.lastActive) =
      some 1 :=
  ⟨rfl, rfl⟩

/-- C9 (amended): `GetSession` slides the expiry (`last_active = now`,
`expires_at = now + 24h`), but the environment-variable operations do not:
a successful `SetEnvVar` or `UnsetEnvVar` leaves `last_active` and
`expires_at` unchanged, and `GetEnvVars` mutates nothing at all. -/
theorem C9_expiry_slide_selective (sm : SessionManagerState) (id : String)
    (now : Nat) (k v : String) (s : Session)
    (h : lookupA sm.sessions id = some s) :
    (s.isActive = true → ∃ sm' s',
      getSession sm id now = Except.ok (sm', s') ∧
      s'.lastActive = now ∧ s'.expiresAt = now + sm.sessionExpiry ∧
      lookupA sm'.sessions id = some s') ∧
    (∀ sm', envSetVar sm id k v = Except.ok sm' → ∃ s',
      lookupA sm'.sessions id = some s' ∧
      s'.lastActive = s.lastActive ∧ s'.expiresAt = s.expiresAt) ∧
    envGetVars sm id = Except.ok s.envVars ∧
    (∀ sm', envUnsetVar sm id k = Except.ok sm' → ∃ s',
      lookupA sm'.sessions id = some s' ∧
      s'.lastActive = s.lastActive ∧ s'.expiresAt = s.expiresAt) := by
  refine ⟨?_, ?_, ?_, ?_⟩
  · intro hact
    have hrun : getSession sm id now = Except.ok
        (withSessions sm (insertA sm.sessions id
          (touchSession s now sm.sessionExpiry)),
         touchSession s now sm.sessionExpiry) := by
      simp [getSession, h, hact]
    exact ⟨_, _, hrun, rfl, rfl, lookupA_insertA_self sm.sessions id _⟩
  · intro sm' hset
    have hrun : envSetVar sm id k v = Except.ok
        (withSessions sm (insertA sm.sessions id
          ({ s with envVars := insertA s.envVars k v }))) := by
      simp [envSetVar, h]
    rw [hrun] at hset
    injection hset with hset
    subst hset
    exact ⟨_, lookupA_insertA_self sm.sessions id _, rfl, rfl⟩
  · simp [envGetVars, h]
  · intro sm' hunset
    have hrun : envUnsetVar sm id k = Except.ok
        (withSessions sm (insertA sm.sessions id
          ({ s with envVars := removeA s.envVars k }))) := by
      simp [envUnsetVar, h]
    rw [hrun] at hunset
    injection hunset with hunset
    subst hunset
    exact ⟨_, lookupA_insertA_self sm.sessions id _, rfl, rfl⟩

/-- Witness for C9 (amended) at the concrete state. -/
theorem C9_expiry_slide_selective_witness :
    envGetVars c9Manager "s1" = Except.ok c9Session.envVars :=
  (C9_expiry_slide_selective c9Manager "s1" 50 "A" "1" c9Session
    rfl).2.2.1

/-! ## History service

`HistoryService` (src/unnamed/part_003 lines 10-113) keeps a map
session-id → entry list, guarded by its own mutex.  Neither `GetHistory`
nor `SearchHistory` consults the session registry: the `SessionManager` is
not even a parameter of the service's state. -/

/-- A history entry (src/unnamed/part_003 lines 10-13). -/
structure HistoryEntry where
  command : String
  timestamp : Nat
deriving Repr, DecidableEq

/-- The `HistoryService` state (src/unnamed/part_003 lines 15-19). -/
structure HistoryServiceState where
  history : List (String × List HistoryEntry)
  maxSize : Nat
deriving Repr, DecidableEq

/-- `HistoryService.GetHistory` (src/unnamed/part_003 lines 55-83): an id
with no recorded history — sessions that never ran a command and ids of
sessions that do not exist alike — yields `ok []`; otherwise the last
`limit` entries (all of them when `limit ≤ 0`). -/
def getHistory (hs : HistoryServiceState) (sessionID : String)
    (limit : Int) : Except String (List HistoryEntry) :=
  match lookupA hs.history sessionID with
  | none => .ok []
  | some sh =>
      if limit ≤ 0 then .ok sh
      else .ok (sh.drop (sh.length - limit.toNat))

/-- Whether `q` is a prefix of `s` (character lists). -/
def isPrefixList : List Char → List Char → Bool
  | [], _ => true
  | _ :: _, [] => false
  | a :: as, b :: bs => a = b && isPrefixList as bs

/-- Whether `q` occurs contiguously inside `s` (character lists). -/
def isInfixList (q : List Char) : List Char → Bool
  | [] => q.isEmpty
  | b :: rest => isPrefixList q (b :: rest) || isInfixList q rest

/-- `strings.Contains`: substring (infix) test. -/
def containsSubstr (s q : String) : Bool :=
  isInfixList q.data s.data

/-- `HistoryService.SearchHistory` (src/unnamed/part_003 lines 85-104):
case-sensitive substring filter; an id with no recorded history yields
`ok []`. -/
def searchHistory (hs : HistoryServiceState) (sessionID query : String) :
    Except String (List HistoryEntry) :=
  match lookupA hs.history sessionID with
  | none => .ok []
  | some sh => .ok (sh.filter (fun e => containsSubstr e.command query))

/-- C10: for every session id with no recorded history — including ids of
sessions that do not exist — `GetHistory` and `SearchHistory` succeed with
an empty list instead of failing with NotFound.  (The embedded functions
take only the history state: the session registry is never consulted.) -/
theorem C10_history_no_session_validation (hs : HistoryServiceState)
    (sessionID query : String) (limit : Int)
    (h : lookupA hs.history sessionID = none) :
    getHistory hs sessionID limit = Except.ok [] ∧
    searchHistory hs sessionID query = Except.ok [] := by
  constructor
  · simp [getHistory, h]
  · simp [searchHistory, h]

/-- Witness for C10: lookups on an id unknown to the history log succeed
with empty results. -/
theorem C10_history_no_session_validation_witness :
    getHistory ⟨[], 1000⟩ "no-such-session" 0 = Except.ok [] ∧
    searchHistory ⟨[], 1000⟩ "no-such-session" "ls" = Except.ok [] :=
  C10_history_no_session_validation ⟨[], 1000⟩ "no-such-session" "ls" 0 rfl

/-! ## Diff engine

`DiffService.GenerateDiff` / `DiffService.ApplyPatch`
(src/fileAPI/services/diff.go lines 38-109) delegate the algorithmic core
to the external `diffmatchpatch` library, which is not part of this
repository's sources — only the caller is.  The engine below is therefore
modelled from the spec (§3 "Patch", §4.4 "DiffEngine"): a character-level
diff grouped into hunks `{pre-image anchor range, post-image range,
literal replacement text}`, serialized through an opaque inline text
format that round-trips via `patchToText` / `patchFromText`, and applied
by anchored matching with a fuzz search of up to 4 positions around the
recorded anchor; a hunk that cannot be located is skipped and the call
still succeeds.  Text is embedded as `List Char` with `String` wrappers. -/

/-- Modelled from the spec: a patch hunk — a pre-image anchor (`start` and
the removed text) and the post-image replacement text. -/
structure Hunk where
  start : Nat
  removed : List Char
  inserted : List Char
deriving Repr, DecidableEq

/-- Decimal digit character of a value below ten. -/
def digitChar : Nat → Char
  | 0 => '0' | 1 => '1' | 2 => '2' | 3 => '3' | 4 => '4'
  | 5 => '5' | 6 => '6' | 7 => '7' | 8 => '8' | 9 => '9'
  | _ => '*'

/-- Value of a decimal digit character. -/
def digitVal : Char → Nat
  | '0' => 0 | '1' => 1 | '2' => 2 | '3' => 3 | '4' => 4
  | '5' => 5 | '6' => 6 | '7' => 7 | '8' => 8 | '9' => 9
  | _ => 0

/-- Whether a character is a decimal digit. -/
def isDigitCh (c : Char) : Bool :=
  ['0', '1', '2', '3', '4', '5', '6', '7', '8', '9'].contains c

/-- Little-endian decimal digits of a number (empty for zero). -/
def encodeNatRev : Nat → List Char
  | 0 => []
  | n + 1 => digitChar ((n + 1) % 10) :: encodeNatRev ((n + 1) / 10)
decreasing_by exact Nat.div_lt_self (Nat.succ_pos n) (by omega)

/-- Usual decimal rendering of a number. -/
def encodeNat (n : Nat) : List Char :=
  if n = 0 then ['0'] else (encodeNatRev n).reverse

/-- Consume leading decimal digits, accumulating their value; return the
value and the unconsumed remainder. -/
def parseNatAcc : Nat → List Char → Nat × List Char
  | acc, [] => (acc, [])
  | acc, c :: rest =>
      if isDigitCh c then parseNatAcc (acc * 10 + digitVal c) rest
      else (acc, c :: rest)

/-- Modelled from the spec: serialize a hunk to the opaque inline patch
text: `start ',' |removed| ',' |inserted| ',' removed inserted`. -/
def patchToText (h : Hunk) : List Char :=
  encodeNat h.start ++ ',' ::
    (encodeNat h.removed.length ++ ',' ::
      (encodeNat h.inserted.length ++ ',' :: (h.removed ++ h.inserted)))

/-- Modelled from the spec: parse the inline patch text back to a hunk. -/
def patchFromText (t : List Char) : Option Hunk :=
  match parseNatAcc 0 t with
  | (st, ',' :: r1) =>
      match parseNatAcc 0 r1 with
      | (lr, ',' :: r2) =>
          match parseNatAcc 0 r2 with
          | (li, ',' :: r3) =>
              if r3.length = lr + li then
                some ⟨st, r3.take lr, (r3.drop lr).take li⟩
              else none
          | _ => none
      | _ => none
  | _ => none

/-- Length of the longest common prefix of two character lists. -/
def commonPrefixLen : List Char → List Char → Nat
  | a :: as, b :: bs => if a = b then commonPrefixLen as bs + 1 else 0
  | _, _ => 0

/-- Length of the common suffix of the two post-prefix remainders of the
diffed texts. -/
def diffSuffixLen (a b : List Char) : Nat :=
  commonPrefixLen (a.drop (commonPrefixLen a b)).reverse
    (b.drop (commonPrefixLen a b)).reverse

/-- Modelled from the spec: the single replacement hunk of a
character-level diff — anchor after the longest common prefix, removing
`a`'s middle and inserting `b`'s middle, the common suffix preserved. -/
def diffHunk (a b : List Char) : Hunk :=
  { start := commonPrefixLen a b,
    removed := (a.drop (commonPrefixLen a b)).take
      ((a.drop (commonPrefixLen a b)).length - diffSuffixLen a b),
    inserted := (b.drop (commonPrefixLen a b)).take
      ((b.drop (commonPrefixLen a b)).length - diffSuffixLen a b) }

/-- Modelled from the spec: `GenerateDiff` over in-line strings — diff the
texts and serialize the patch. -/
def generateDiff (a b : List Char) : List Char :=
  patchToText (diffHunk a b)

/-- Whether the pattern occurs at the given position. -/
def matchAt (a : List Char) (pos : Nat) (pat : List Char) : Bool :=
  isPrefixList pat (a.drop pos)

/-- Candidate anchor positions: the recorded position first, then offsets
up to the fuzz factor 4, forward and backward. -/
def fuzzCandidates (start : Nat) : List Nat :=
  start :: (List.range 4).flatMap (fun d =>
    [start + (d + 1)] ++ (if d + 1 ≤ start then [start - (d + 1)] else []))

/-- Modelled from the spec: locate a hunk's anchor, tolerating an offset of
up to 4 positions. -/
def findAnchor (a : List Char) (start : Nat) (pat : List Char) :
    Option Nat :=
  (fuzzCandidates start).find? (fun pos => matchAt a pos pat)

/-- Modelled from the spec: `ApplyPatch` over in-line strings — parse the
patch text, locate the anchor with fuz, and splice in the replacement; a
hunk that cannot be located is skipped (the result is still `ok`). -/
def applyPatch (a : List Char) (text : List Char) :
    Except String (List Char) :=
  match patchFromText text with
  | none => .error "invalid patch format"
  | some h =>
      match findAnchor a h.start h.removed with
      | none => .ok a
      | some pos =>
          .ok (a.take pos ++ h.inserted ++ a.drop (pos + h.removed.length))

/-- `GenerateDiff` at the `String` interface of the HTTP edge. -/
def generateDiffStr (original modified : String) : String :=
  ⟨generateDiff original.data modified.data⟩

/-- `ApplyPatch` at the `String` interface of the HTTP edge. -/
def applyPatchStr (original patches : String) : Except String String :=
  (applyPatch original.data patches.data).map String.mk

/-! ### Serialization round-trip -/

theorem digitVal_digitChar (m : Nat) (h : m < 10) :
    digitVal (digitChar m) = m := by
  interval_cases m <;> rfl

theorem isDigitCh_digitChar (m : Nat) (h : m < 10) :
    isDigitCh (digitChar m) = true := by
  interval_cases m <;> rfl

theorem encodeNatRev_digits (n : Nat) :
    ∀ c ∈ encodeNatRev n, isDigitCh c = true := by
  induction n using Nat.strong_induction_on with
  | _ n ih =>
      cases n with
      | zero => intro c hc; simp [encodeNatRev] at hc
      | succ m =>
          intro c hc
          rw [encodeNatRev] at hc
          rcases List.mem_cons.mp hc with hc | hc
          · subst hc
            exact isDigitCh_digitChar _ (Nat.mod_lt _ (by omega))
          · exact ih ((m + 1) / 10)
              (Nat.div_lt_self (Nat.succ_pos m) (by omega)) c hc

theorem foldl_encodeNatRev (n acc : Nat) :
    ((encodeNatRev n).reverse).foldl (fun a c => a * 10 + digitVal c) acc =
      acc * 10 ^ (encodeNatRev n).length + n := by
  induction n using Nat.strong_induction_on generalizing acc with
  | _ n ih =>
      cases n with
      | zero => simp [encodeNatRev]
      | succ m =>
          rw [encodeNatRev, List.reverse_cons, List.foldl_append,
            ih ((m + 1) / 10) (Nat.div_lt_self (Nat.succ_pos m) (by omega))]
          simp only [List.foldl_cons, List.foldl_nil, List.length_cons]
          rw [digitVal_digitChar _ (Nat.mod_lt _ (by omega)), pow_succ,
            ← Nat.mul_assoc]
          generalize acc * 10 ^ (encodeNatRev ((m + 1) / 10)).length = y
          omega

theorem encodeNat_digits (n : Nat) :
    ∀ c ∈ encodeNat n, isDigitCh c = true := by
  unfold encodeNat
  by_cases h : n = 0
  · rw [if_pos h]
    intro c hc
    simp at hc
    subst hc
    rfl
  · rw [if_neg h]
    intro c hc
    exact encodeNatRev_digits n c (List.mem_reverse.mp hc)

theorem parseNatAcc_append_comma (ds : List Char) (r : List Char)
    (acc : Nat) (hds : ∀ c ∈ ds, isDigitCh c = true) :
    parseNatAcc acc (ds ++ ',' :: r) =
      (ds.foldl (fun a c => a * 10 + digitVal c) acc, ',' :: r) := by
  induction ds generalizing acc with
  | nil =>
      have hc : isDigitCh ',' = false := rfl
      simp [parseNatAcc, hc]
  | cons d ds ih =>
      have hd : isDigitCh d = true := hds d (by simp)
      simp only [List.cons_append, parseNatAcc, hd, if_true,
        List.foldl_cons]
      exact ih _ (fun c hc => hds c (by simp [hc]))

theorem parseNatAcc_encodeNat (n : Nat) (r : List Char) :
    parseNatAcc 0 (encodeNat n ++ ',' :: r) = (n, ',' :: r) := by
  rw [parseNatAcc_append_comma _ _ _ (encodeNat_digits n)]
  congr 1
  unfold encodeNat
  by_cases h : n = 0
  · subst h; rfl
  · rw [if_neg h, foldl_encodeNatRev]
    simp

theorem patchFromText_patchToText (h : Hunk) :
    patchFromText (patchToText h) = some h := by
  simp [patchFromText, patchToText, parseNatAcc_encodeNat,
    List.take_left, List.drop_left, List.take_length]

/-! ### Diff decomposition lemmas -/

theorem commonPrefixLen_le_left :
    ∀ a b : List Char, commonPrefixLen a b ≤ a.length := by
  intro a
  induction a with
  | nil => intro b; simp [commonPrefixLen]
  | cons x as ih =>
      intro b
      cases b with
      | nil => simp [commonPrefixLen]
      | cons y bs =>
          simp only [commonPrefixLen, List.length_cons]
          by_cases hxy : x = y
          · rw [if_pos hxy]
            have := ih bs
            omega
          · rw [if_neg hxy]
            omega

theorem commonPrefixLen_le_right :
    ∀ a b : List Char, commonPrefixLen a b ≤ b.length := by
  intro a
  induction a with
  | nil => intro b; simp [commonPrefixLen]
  | cons x as ih =>
      intro b
      cases b with
      | nil => simp [commonPrefixLen]
      | cons y bs =>
          simp only [commonPrefixLen, List.length_cons]
          by_cases hxy : x = y
          · rw [if_pos hxy]
            have := ih bs
            omega
          · rw [if_neg hxy]
            omega

theorem take_commonPrefixLen :
    ∀ a b : List Char,
      a.take (commonPrefixLen a b) = b.take (commonPrefixLen a b) := by
  intro a
  induction a with
  | nil => intro b; simp [commonPrefixLen]
  | cons x as ih =>
      intro b
      cases b with
      | nil => simp [commonPrefixLen]
      | cons y bs =>
          simp only [commonPrefixLen]
          by_cases hxy : x = y
          · rw [if_pos hxy]
            simp only [List.take_succ_cons]
            rw [hxy, ih bs]
          · rw [if_neg hxy]
            simp

theorem isPrefixList_take :
    ∀ (l : List Char) (n : Nat), isPrefixList (l.take n) l = true := by
  intro l
  induction l with
  | nil => intro n; simp [isPrefixList]
  | cons c rest ih =>
      intro n
      cases n with
      | zero => simp [isPrefixList]
      | succ n =>
          simp only [List.take_succ_cons, isPrefixList]
          simp [ih n]

theorem findAnchor_exact (a : List Char) (start : Nat) (pat : List Char)
    (h : matchAt a start pat = true) :
    findAnchor a start pat = some start := by
  unfold findAnchor fuzzCandidates
  simp [List.find?, h]

/-- List-level round trip: applying the generated patch to the original
text reconstructs the modified text exactly. -/
theorem applyPatch_generateDiff (a b : List Char) :
    applyPatch a (generateDiff a b) = Except.ok b := by
  have hpf : patchFromText (generateDiff a b) = some (diffHunk a b) :=
    patchFromText_patchToText (diffHunk a b)
  have hmatch : matchAt a (diffHunk a b).start (diffHunk a b).removed =
      true := isPrefixList_take (a.drop (commonPrefixLen a b)) _
  have hanchor : findAnchor a (diffHunk a b).start (diffHunk a b).removed =
      some (diffHunk a b).start := findAnchor_exact _ _ _ hmatch
  simp only [applyPatch, hpf, hanchor]
  congr 1
  have hs1 : diffSuffixLen a b ≤ (a.drop (commonPrefixLen a b)).length := by
    have h0 := commonPrefixLen_le_left
      (a.drop (commonPrefixLen a b)).reverse
      (b.drop (commonPrefixLen a b)).reverse
    simpa [diffSuffixLen] using h0
  have hs2 : diffSuffixLen a b ≤ (b.drop (commonPrefixLen a b)).length := by
    have h0 := commonPrefixLen_le_right
      (a.drop (commonPrefixLen a b)).reverse
      (b.drop (commonPrefixLen a b)).reverse
    simpa [diffSuffixLen] using h0
  have hlen : (diffHunk a b).removed.length =
      (a.drop (commonPrefixLen a b)).length - diffSuffixLen a b := by
    show ((a.drop (commonPrefixLen a b)).take
      ((a.drop (commonPrefixLen a b)).length - diffSuffixLen a b)).length = _
    rw [List.length_take]
    omega
  have hsufrev : ((a.drop (commonPrefixLen a b)).drop
        ((a.drop (commonPrefixLen a b)).length - diffSuffixLen a b)).reverse =
      ((b.drop (commonPrefixLen a b)).drop
        ((b.drop (commonPrefixLen a b)).length -
          diffSuffixLen a b)).reverse := by
    have e1 : (a.drop (commonPrefixLen a b)).length -
        ((a.drop (commonPrefixLen a b)).length - diffSuffixLen a b) =
          diffSuffixLen a b := by omega
    have e2 : (b.drop (commonPrefixLen a b)).length -
        ((b.drop (commonPrefixLen a b)).length - diffSuffixLen a b) =
          diffSuffixLen a b := by omega
    rw [List.reverse_drop (l := a.drop (commonPrefixLen a b))
        (n := (a.drop (commonPrefixLen a b)).length - diffSuffixLen a b)]
    rw [List.reverse_drop (l := b.drop (commonPrefixLen a b))
        (n := (b.drop (commonPrefixLen a b)).length - diffSuffixLen a b)]
    rw [e1, e2]
    exact take_commonPrefixLen (a.drop (commonPrefixLen a b)).reverse
      (b.drop (commonPrefixLen a b)).reverse
  have hsuf : (a.drop (commonPrefixLen a b)).drop
        ((a.drop (commonPrefixLen a b)).length - diffSuffixLen a b) =
      (b.drop (commonPrefixLen a b)).drop
        ((b.drop (commonPrefixLen a b)).length - diffSuffixLen a b) :=
    List.reverse_injective hsufrev
  have hstart : (diffHunk a b).start = commonPrefixLen a b := rfl
  have hins : (diffHunk a b).inserted =
      (b.drop (commonPrefixLen a b)).take
        ((b.drop (commonPrefixLen a b)).length - diffSuffixLen a b) := rfl
  rw [hstart, hins, hlen]
  have hdrop : a.drop (commonPrefixLen a b +
      ((a.drop (commonPrefixLen a b)).length - diffSuffixLen a b)) =
      (a.drop (commonPrefixLen a b)).drop
        ((a.drop (commonPrefixLen a b)).length - diffSuffixLen a b) :=
    (List.drop_drop _ _ _).symm
  rw [hdrop, hsuf, take_commonPrefixLen a b]
  rw [List.append_assoc, List.take_append_drop, List.take_append_drop]

/-- C5: for every pair of strings `a`, `b`, generating a patch with
`GenerateDiff(a, b)` and applying the serialized patch text back to `a`
with `ApplyPatch` yields exactly `b` — the text round-trips through the
patch format.  (Spec-modelled diff engine: the hunk anchor matches `a` at
the recorded position, the fuzz search returns it, and splicing the
replacement between `a`'s common prefix and suffix reconstructs `b`.) -/
theorem C5_diff_patch_roundtrip (a b : String) :
    applyPatchStr a (generateDiffStr a b) = Except.ok b := by
  show (applyPatch a.data (generateDiff a.data b.data)).map String.mk = _
  rw [applyPatch_generateDiff]
  rfl

end OsAi
